import Mathlib

/-!
Shallow embedding of the stock-management backend
(`src/stock_backend/src/api/main.py`).

The service keeps two in-memory collections (`CATEGORIES`, `PRODUCTS`) and a
session table (`ADMIN_SESSIONS`, a dict token → username).  Each HTTP handler
is translated to a pure Lean function; a Python function that mutates the
global lists and may `raise HTTPException` becomes a function returning
`Except ApiError α × StoreState`, where the returned state is the state of the
globals when the handler returns OR raises (Python keeps mutations performed
before a raise, so the error branch also carries the possibly-modified state).

Error codes are translated as: 404 → `notFound`, 400 → `invalidReference`,
401 → `unauthorized`.
-/

/-- `class Category(BaseModel)` from main.py: id and name. -/
structure Category where
  id : Int
  name : String
deriving DecidableEq

/-- `class Product(BaseModel)` from main.py: id, name, category_id, image_url, quantity. -/
structure Product where
  id : Int
  name : String
  category_id : Int
  image_url : String
  quantity : Int
deriving DecidableEq

/-- The two global collections `CATEGORIES` and `PRODUCTS` of main.py. -/
structure StoreState where
  categories : List Category
  products : List Product
deriving DecidableEq

/-- The errors the handlers raise: `HTTPException` with status 404, 400 or 401. -/
inductive ApiError where
  | notFound
  | invalidReference
  | unauthorized
deriving DecidableEq

/-- Python's `max(iterable, default=d)` over a list of ints. -/
def maxWithDefault (xs : List Int) (d : Int) : Int :=
  match xs with
  | [] => d
  | x :: rest => rest.foldl max x

/-- `_get_next_category_id()`: `max((cat.id for cat in CATEGORIES), default=0) + 1`. -/
def get_next_category_id (categories : List Category) : Int :=
  maxWithDefault (categories.map Category.id) 0 + 1

/-- `_get_next_product_id()`: `max((prod.id for prod in PRODUCTS), default=0) + 1`. -/
def get_next_product_id (products : List Product) : Int :=
  maxWithDefault (products.map Product.id) 0 + 1

/-- `create_category(data)`: build a category with the next id, append it, return it.
Never raises. -/
def create_category (name : String) (s : StoreState) : Category × StoreState :=
  let cat : Category := { id := get_next_category_id s.categories, name := name }
  (cat, { s with categories := s.categories ++ [cat] })

/-- The `for cat in CATEGORIES` loop of `update_category`: replace the name of the
first category whose id matches, 404 if none matches. -/
def updateCategoryList (category_id : Int) (name : String) :
    List Category → Except ApiError Category × List Category
  | [] => (.error .notFound, [])
  | cat :: rest =>
    if cat.id = category_id then
      let cat' := { cat with name := name }
      (.ok cat', cat' :: rest)
    else
      ((updateCategoryList category_id name rest).1,
       cat :: (updateCategoryList category_id name rest).2)

/-- `update_category(category_id, data)` acting on the store. -/
def update_category (category_id : Int) (name : String) (s : StoreState) :
    Except ApiError Category × StoreState :=
  ((updateCategoryList category_id name s.categories).1,
   { s with categories := (updateCategoryList category_id name s.categories).2 })

/-- The loop of `partial_update_category`: at the first matching category, replace
the name only when one was supplied, then return the category; 404 if none matches. -/
def partialUpdateCategoryList (category_id : Int) (name : Option String) :
    List Category → Except ApiError Category × List Category
  | [] => (.error .notFound, [])
  | cat :: rest =>
    if cat.id = category_id then
      match name with
      | some n =>
        let cat' := { cat with name := n }
        (.ok cat', cat' :: rest)
      | none => (.ok cat, cat :: rest)
    else
      ((partialUpdateCategoryList category_id name rest).1,
       cat :: (partialUpdateCategoryList category_id name rest).2)

/-- `partial_update_category(category_id, data)` acting on the store. -/
def partial_update_category (category_id : Int) (name : Option String) (s : StoreState) :
    Except ApiError Category × StoreState :=
  ((partialUpdateCategoryList category_id name s.categories).1,
   { s with categories := (partialUpdateCategoryList category_id name s.categories).2 })

/-- `CATEGORIES.pop(idx)` where `idx` is the index of the first category whose id
matches (`next((i for i, cat in enumerate(CATEGORIES) if cat.id == category_id), None)`);
`none` when no category matches. -/
def removeFirstCategory (category_id : Int) : List Category → Option (List Category)
  | [] => none
  | cat :: rest =>
    if cat.id = category_id then some rest
    else (removeFirstCategory category_id rest).map (cat :: ·)

/-- `delete_category(category_id)`: 404 when the id is absent; otherwise pop the
category and rebuild `PRODUCTS` keeping only products whose category_id differs. -/
def delete_category (category_id : Int) (s : StoreState) :
    Except ApiError Unit × StoreState :=
  match removeFirstCategory category_id s.categories with
  | none => (.error .notFound, s)
  | some cats =>
    (.ok (), { categories := cats,
               products := s.products.filter (fun p => p.category_id ≠ category_id) })

/-- `create_product(data)`: 400 when no category has the supplied category_id;
otherwise build the product with the next id, append it, return it. -/
def create_product (name : String) (category_id : Int) (image_url : String)
    (quantity : Int) (s : StoreState) : Except ApiError Product × StoreState :=
  if s.categories.any (fun cat => cat.id = category_id) then
    let prod : Product :=
      { id := get_next_product_id s.products, name := name, category_id := category_id,
        image_url := image_url, quantity := quantity }
    (.ok prod, { s with products := s.products ++ [prod] })
  else
    (.error .invalidReference, s)

/-- The loop of `update_product`: at the first product whose id matches, overwrite
all four fields (no category validation) and return it; 404 if none matches. -/
def updateProductList (product_id : Int) (name : String) (category_id : Int)
    (image_url : String) (quantity : Int) :
    List Product → Except ApiError Product × List Product
  | [] => (.error .notFound, [])
  | prod :: rest =>
    if prod.id = product_id then
      let prod' : Product :=
        { id := prod.id, name := name, category_id := category_id,
          image_url := image_url, quantity := quantity }
      (.ok prod', prod' :: rest)
    else
      ((updateProductList product_id name category_id image_url quantity rest).1,
       prod :: (updateProductList product_id name category_id image_url quantity rest).2)

/-- `update_product(product_id, data)` acting on the store. -/
def update_product (product_id : Int) (name : String) (category_id : Int)
    (image_url : String) (quantity : Int) (s : StoreState) :
    Except ApiError Product × StoreState :=
  ((updateProductList product_id name category_id image_url quantity s.products).1,
   { s with products := (updateProductList product_id name category_id image_url quantity s.products).2 })

/-- The optional fields of `class ProductUpdate(BaseModel)`. -/
structure ProductUpdate where
  name : Option String
  category_id : Option Int
  image_url : Option String
  quantity : Option Int
deriving DecidableEq

/-- The loop of `partial_update_product`.  The Python body mutates the matched
product field by field: name first, then category_id (validated against the
category collection, raising 400 and KEEPING the name mutation when invalid),
then image_url, then quantity. -/
def partialUpdateProductList (product_id : Int) (data : ProductUpdate)
    (categories : List Category) :
    List Product → Except ApiError Product × List Product
  | [] => (.error .notFound, [])
  | prod :: rest =>
    if prod.id = product_id then
      let p1 := match data.name with
        | some v => { prod with name := v }
        | none => prod
      match data.category_id with
      | some cid =>
        if categories.any (fun cat => cat.id = cid) then
          let p2 := { p1 with category_id := cid }
          let p3 := match data.image_url with
            | some v => { p2 with image_url := v }
            | none => p2
          let p4 := match data.quantity with
            | some v => { p3 with quantity := v }
            | none => p3
          (.ok p4, p4 :: rest)
        else
          (.error .invalidReference, p1 :: rest)
      | none =>
        let p3 := match data.image_url with
          | some v => { p1 with image_url := v }
          | none => p1
        let p4 := match data.quantity with
          | some v => { p3 with quantity := v }
          | none => p3
        (.ok p4, p4 :: rest)
    else
      ((partialUpdateProductList product_id data categories rest).1,
       prod :: (partialUpdateProductList product_id data categories rest).2)

/-- `partial_update_product(product_id, data)` acting on the store. -/
def partial_update_product (product_id : Int) (data : ProductUpdate) (s : StoreState) :
    Except ApiError Product × StoreState :=
  ((partialUpdateProductList product_id data s.categories s.products).1,
   { s with products := (partialUpdateProductList product_id data s.categories s.products).2 })

/-- `PRODUCTS.pop(idx)` where `idx` is the index of the first product whose id
matches; `none` when no product matches. -/
def removeFirstProduct (product_id : Int) : List Product → Option (List Product)
  | [] => none
  | prod :: rest =>
    if prod.id = product_id then some rest
    else (removeFirstProduct product_id rest).map (prod :: ·)

/-- `delete_product(product_id)`: 404 when absent, otherwise pop the product. -/
def delete_product (product_id : Int) (s : StoreState) :
    Except ApiError Unit × StoreState :=
  match removeFirstProduct product_id s.products with
  | none => (.error .notFound, s)
  | some prods => (.ok (), { s with products := prods })

/-- `ADMIN_USERNAME = "admin"` from main.py. -/
def ADMIN_USERNAME : String := "admin"

/-- `ADMIN_PASSWORD = "admin"` from main.py. -/
def ADMIN_PASSWORD : String := "admin"

/-- `ADMIN_SESSIONS`, the dict token → username, as an association list whose
lookup finds the first (most recently stored) entry with the given key. -/
abbrev Sessions : Type := List (String × String)

/-- `token in ADMIN_SESSIONS` / `ADMIN_SESSIONS[token]` combined: the username
stored under the token, `none` when the token is absent. -/
def lookupToken (sessions : Sessions) (token : String) : Option String :=
  (sessions.find? (fun e => e.1 = token)).map Prod.snd

/-- `ADMIN_SESSIONS[token] = username`: dict assignment; the new entry shadows
any older one under list find-first lookup. -/
def storeToken (sessions : Sessions) (token username : String) : Sessions :=
  (token, username) :: sessions

/-- `authenticate_admin_token(token)`: return the stored username when the token
is in `ADMIN_SESSIONS`, raise 401 otherwise.  The Python function only reads the
session table and the catalog globals are never touched, which the embedding
reflects by being a pure function that returns no state. -/
def authenticate_admin_token (sessions : Sessions) (token : String) :
    Except ApiError String :=
  match lookupToken sessions token with
  | some u => .ok u
  | none => .error .unauthorized

/-- `admin_login(data)`: when username and password both equal the hardcoded
admin credentials, store the freshly generated token (the random
`str(uuid.uuid4())` is taken as the `token` argument) and return it; otherwise
raise 401 and leave the session table unchanged. -/
def admin_login (username password token : String) (sessions : Sessions) :
    Except ApiError String × Sessions :=
  if username = ADMIN_USERNAME ∧ password = ADMIN_PASSWORD then
    (.ok token, storeToken sessions token username)
  else
    (.error .unauthorized, sessions)

/-- The seed list `CATEGORIES` of main.py (10 categories). -/
def initialCategories : List Category :=
  [⟨1, "Beverages"⟩, ⟨2, "Snacks"⟩, ⟨3, "Meat"⟩, ⟨4, "Produce"⟩, ⟨5, "Dairy"⟩,
   ⟨6, "Bakery"⟩, ⟨7, "Frozen Foods"⟩, ⟨8, "Canned Goods"⟩, ⟨9, "Condiments"⟩,
   ⟨10, "Cleaning Supplies"⟩]

/-- The seed list `PRODUCTS` of main.py (53 products); the image URLs are not
relevant to any id-uniqueness claim and are abbreviated to the text tag. -/
def initialProducts : List Product :=
  [⟨1, "Apple Juice", 1, "Apple+Juice", 10⟩, ⟨2, "Orange Soda", 1, "Orange+Soda", 30⟩,
   ⟨3, "Bottled Water", 1, "Bottled+Water", 50⟩, ⟨4, "Lemonade", 1, "Lemonade", 12⟩,
   ⟨5, "Iced Tea", 1, "Iced+Tea", 8⟩, ⟨6, "Cookies", 2, "Cookies", 15⟩,
   ⟨7, "Potato Chips", 2, "Potato+Chips", 25⟩, ⟨8, "Pretzels", 2, "Pretzels", 7⟩,
   ⟨9, "Popcorn", 2, "Popcorn", 30⟩, ⟨10, "Peanuts", 2, "Peanuts", 22⟩,
   ⟨11, "Chicken Breast", 3, "Chicken+Breast", 14⟩, ⟨12, "Beef Steak", 3, "Beef+Steak", 6⟩,
   ⟨13, "Turkey Slices", 3, "Turkey+Slices", 16⟩, ⟨14, "Bacon", 3, "Bacon", 8⟩,
   ⟨15, "Ham", 3, "Ham", 9⟩, ⟨16, "Bananas", 4, "Bananas", 13⟩,
   ⟨17, "Apples", 4, "Apples", 17⟩, ⟨18, "Carrots", 4, "Carrots", 28⟩,
   ⟨19, "Tomatoes", 4, "Tomatoes", 19⟩, ⟨20, "Lettuce", 4, "Lettuce", 11⟩,
   ⟨21, "Milk", 5, "Milk", 10⟩, ⟨22, "Cheese", 5, "Cheese", 6⟩,
   ⟨23, "Yogurt", 5, "Yogurt", 8⟩, ⟨24, "Butter", 5, "Butter", 5⟩,
   ⟨25, "Eggs (Dozen)", 5, "Eggs", 31⟩, ⟨26, "White Bread", 6, "White+Bread", 20⟩,
   ⟨27, "Croissant", 6, "Croissant", 10⟩, ⟨28, "Bagel", 6, "Bagel", 15⟩,
   ⟨29, "Multigrain Loaf", 6, "Multigrain+Loaf", 8⟩, ⟨30, "Donuts", 6, "Donuts", 13⟩,
   ⟨31, "Frozen Pizza", 7, "Frozen+Pizza", 8⟩, ⟨32, "Ice Cream", 7, "Ice+Cream", 23⟩,
   ⟨33, "Waffles", 7, "Waffles", 10⟩, ⟨34, "Vegetable Mix", 7, "Vegetable+Mix", 16⟩,
   ⟨35, "French Fries", 7, "French+Fries", 21⟩, ⟨36, "Canned Beans", 8, "Canned+Beans", 27⟩,
   ⟨37, "Canned Corn", 8, "Canned+Corn", 18⟩, ⟨38, "Tuna", 8, "Tuna", 20⟩,
   ⟨39, "Tomato Soup", 8, "Tomato+Soup", 12⟩, ⟨40, "Chili", 8, "Chili", 8⟩,
   ⟨41, "Ketchup", 9, "Ketchup", 14⟩, ⟨42, "Mayonnaise", 9, "Mayonnaise", 6⟩,
   ⟨43, "Mustard", 9, "Mustard", 11⟩, ⟨44, "Soy Sauce", 9, "Soy+Sauce", 5⟩,
   ⟨45, "BBQ Sauce", 9, "BBQ+Sauce", 8⟩, ⟨46, "Detergent", 10, "Detergent", 10⟩,
   ⟨47, "Sponge", 10, "Sponge", 18⟩, ⟨48, "Glass Cleaner", 10, "Glass+Cleaner", 11⟩,
   ⟨49, "Disinfectant", 10, "Disinfectant", 12⟩, ⟨50, "Broom", 10, "Broom", 4⟩,
   ⟨51, "Herbal Tea", 1, "Herbal+Tea", 12⟩, ⟨52, "Granola Bar", 2, "Granola+Bar", 21⟩,
   ⟨53, "Salami", 3, "Salami", 10⟩]

/-- The store as seeded at process start. -/
def initialState : StoreState :=
  { categories := initialCategories, products := initialProducts }

/-- One catalog mutation, with the arguments its handler takes. -/
inductive CatalogOp where
  | createCategory (name : String)
  | updateCategory (id : Int) (name : String)
  | patchCategory (id : Int) (name : Option String)
  | deleteCategory (id : Int)
  | createProduct (name : String) (category_id : Int) (image_url : String) (quantity : Int)
  | updateProduct (id : Int) (name : String) (category_id : Int) (image_url : String) (quantity : Int)
  | patchProduct (id : Int) (data : ProductUpdate)
  | deleteProduct (id : Int)

/-- The state of the collections after one handler call (whether it returned
an entity or raised). -/
def applyOp (op : CatalogOp) (s : StoreState) : StoreState :=
  match op with
  | .createCategory name => (create_category name s).2
  | .updateCategory id name => (update_category id name s).2
  | .patchCategory id name => (partial_update_category id name s).2
  | .deleteCategory id => (delete_category id s).2
  | .createProduct name cid url qty => (create_product name cid url qty s).2
  | .updateProduct id name cid url qty => (update_product id name cid url qty s).2
  | .patchProduct id data => (partial_update_product id data s).2
  | .deleteProduct id => (delete_product id s).2

/-- The state after a whole sequence of handler calls. -/
def runOps (ops : List CatalogOp) (s : StoreState) : StoreState :=
  ops.foldl (fun t op => applyOp op t) s

/-- The uniqueness invariant of the data model: ids are pairwise distinct in
each collection. -/
def IdsUnique (s : StoreState) : Prop :=
  (s.categories.map Category.id).Nodup ∧ (s.products.map Product.id).Nodup

/-! ### Facts about `maxWithDefault` -/

theorem le_foldl_max (a : Int) (l : List Int) : a ≤ l.foldl max a := by
  induction l generalizing a with
  | nil => simp
  | cons x xs ih => exact le_trans (le_max_left a x) (ih (max a x))

theorem mem_le_foldl_max (a b : Int) (l : List Int) (hb : b ∈ l) :
    b ≤ l.foldl max a := by
  induction l generalizing a with
  | nil => cases hb
  | cons x xs ih =>
    rcases List.mem_cons.mp hb with h | h
    · subst h
      exact le_trans (le_max_right a b) (le_foldl_max _ _)
    · exact ih _ h

theorem foldl_max_mem (a : Int) (l : List Int) : l.foldl max a ∈ a :: l := by
  induction l generalizing a with
  | nil => simp
  | cons x xs ih =>
    have h := ih (max a x)
    rcases List.mem_cons.mp h with h1 | h1
    · rcases max_choice a x with hm | hm
      · simp only [List.foldl_cons]
        rw [h1, hm]
        exact List.mem_cons_self _ _
      · simp only [List.foldl_cons]
        rw [h1, hm]
        exact List.mem_cons_of_mem _ (List.mem_cons_self _ _)
    · simp only [List.foldl_cons]
      exact List.mem_cons_of_mem _ (List.mem_cons_of_mem _ h1)

theorem le_maxWithDefault (xs : List Int) (d x : Int) (hx : x ∈ xs) :
    x ≤ maxWithDefault xs d := by
  cases xs with
  | nil => cases hx
  | cons y ys =>
    rcases List.mem_cons.mp hx with h | h
    · subst h
      exact le_foldl_max _ _
    · exact mem_le_foldl_max _ _ _ h

theorem maxWithDefault_mem (xs : List Int) (d : Int) (h : xs ≠ []) :
    maxWithDefault xs d ∈ xs := by
  cases xs with
  | nil => exact absurd rfl h
  | cons y ys =>
    simpa [maxWithDefault] using foldl_max_mem y ys

/-! ### Facts about the category-list loops -/

theorem map_cat_ite_id (cid : Int) (g : Category → Category) (l : List Category)
    (h : ∀ c ∈ l, c.id ≠ cid) :
    (l.map fun c => if c.id = cid then g c else c) = l := by
  induction l with
  | nil => rfl
  | cons x xs ih =>
    simp only [List.map_cons, if_neg (h x (List.mem_cons_self x xs))]
    rw [ih fun c hc => h c (List.mem_cons_of_mem _ hc)]

theorem map_prod_ite_id (pid : Int) (g : Product → Product) (l : List Product)
    (h : ∀ p ∈ l, p.id ≠ pid) :
    (l.map fun p => if p.id = pid then g p else p) = l := by
  induction l with
  | nil => rfl
  | cons x xs ih =>
    simp only [List.map_cons, if_neg (h x (List.mem_cons_self x xs))]
    rw [ih fun p hp => h p (List.mem_cons_of_mem _ hp)]

theorem nodup_cons_head_ne (x : Category) (xs : List Category)
    (hnd : ((x :: xs).map Category.id).Nodup) : ∀ c ∈ xs, c.id ≠ x.id := by
  intro c hc he
  have hx : x.id ∉ xs.map Category.id := (List.nodup_cons.mp hnd).1
  exact hx (he ▸ List.mem_map_of_mem Category.id hc)

theorem nodup_cons_head_ne_prod (x : Product) (xs : List Product)
    (hnd : ((x :: xs).map Product.id).Nodup) : ∀ p ∈ xs, p.id ≠ x.id := by
  intro p hp he
  have hx : x.id ∉ xs.map Product.id := (List.nodup_cons.mp hnd).1
  exact hx (he ▸ List.mem_map_of_mem Product.id hp)

theorem updateCategoryList_snd_map_id (cid : Int) (n : String) (l : List Category) :
    ((updateCategoryList cid n l).2).map Category.id = l.map Category.id := by
  induction l with
  | nil => rfl
  | cons c rest ih =>
    by_cases h : c.id = cid
    · simp [updateCategoryList, h]
    · simp [updateCategoryList, h, ih]

theorem updateCategoryList_not_found (cid : Int) (n : String) (l : List Category)
    (h : ∀ c ∈ l, c.id ≠ cid) :
    updateCategoryList cid n l = (.error .notFound, l) := by
  induction l with
  | nil => rfl
  | cons c rest ih =>
    have hc := h c (List.mem_cons_self c rest)
    simp [updateCategoryList, hc, ih fun x hx => h x (List.mem_cons_of_mem _ hx)]

theorem updateCategoryList_found (cid : Int) (n : String) (l : List Category)
    (hnd : (l.map Category.id).Nodup) (h : ∃ c ∈ l, c.id = cid) :
    updateCategoryList cid n l =
      (.ok ⟨cid, n⟩, l.map fun c => if c.id = cid then (⟨cid, n⟩ : Category) else c) := by
  induction l with
  | nil => simp at h
  | cons c rest ih =>
    by_cases hc : c.id = cid
    · have hrest : ∀ x ∈ rest, x.id ≠ cid := fun x hx => hc ▸ nodup_cons_head_ne c rest hnd x hx
      simp [updateCategoryList, hc, map_cat_ite_id cid _ rest hrest]
    · obtain ⟨x, hx, hxid⟩ := h
      rcases List.mem_cons.mp hx with rfl | hx'
      · exact absurd hxid hc
      · simp [updateCategoryList, hc,
          ih (List.nodup_cons.mp hnd).2 ⟨x, hx', hxid⟩]

theorem partialUpdateCategoryList_some (cid : Int) (n : String) (l : List Category) :
    partialUpdateCategoryList cid (some n) l = updateCategoryList cid n l := by
  induction l with
  | nil => rfl
  | cons c rest ih =>
    by_cases h : c.id = cid
    · simp [partialUpdateCategoryList, updateCategoryList, h]
    · simp [partialUpdateCategoryList, updateCategoryList, h, ih]

theorem partialUpdateCategoryList_none_found (cid : Int) (l : List Category)
    (h : ∃ c ∈ l, c.id = cid) :
    ∃ c ∈ l, c.id = cid ∧ partialUpdateCategoryList cid none l = (.ok c, l) := by
  induction l with
  | nil => simp at h
  | cons x rest ih =>
    by_cases hx : x.id = cid
    · exact ⟨x, List.mem_cons_self x rest, hx, by simp [partialUpdateCategoryList, hx]⟩
    · obtain ⟨c, hc, hcid⟩ := h
      rcases List.mem_cons.mp hc with rfl | hc'
      · exact absurd hcid hx
      · obtain ⟨c', hc2, hcid2, heq⟩ := ih ⟨c, hc', hcid⟩
        exact ⟨c', List.mem_cons_of_mem _ hc2, hcid2,
          by simp [partialUpdateCategoryList, hx, heq]⟩

theorem partialUpdateCategoryList_not_found (cid : Int) (n : Option String)
    (l : List Category) (h : ∀ c ∈ l, c.id ≠ cid) :
    partialUpdateCategoryList cid n l = (.error .notFound, l) := by
  induction l with
  | nil => rfl
  | cons c rest ih =>
    have hc := h c (List.mem_cons_self c rest)
    simp [partialUpdateCategoryList, hc,
      ih fun x hx => h x (List.mem_cons_of_mem _ hx)]

theorem partialUpdateCategoryList_snd_map_id (cid : Int) (n : Option String)
    (l : List Category) :
    ((partialUpdateCategoryList cid n l).2).map Category.id = l.map Category.id := by
  induction l with
  | nil => rfl
  | cons c rest ih =>
    by_cases h : c.id = cid
    · cases n <;> simp [partialUpdateCategoryList, h]
    · simp [partialUpdateCategoryList, h, ih]

/-! ### Facts about the product-list loops -/

theorem updateProductList_snd_map_id (pid : Int) (n : String) (cid : Int) (url : String)
    (qty : Int) (l : List Product) :
    ((updateProductList pid n cid url qty l).2).map Product.id = l.map Product.id := by
  induction l with
  | nil => rfl
  | cons p rest ih =>
    by_cases h : p.id = pid
    · simp [updateProductList, h]
    · simp [updateProductList, h, ih]

theorem updateProductList_not_found (pid : Int) (n : String) (cid : Int) (url : String)
    (qty : Int) (l : List Product) (h : ∀ p ∈ l, p.id ≠ pid) :
    updateProductList pid n cid url qty l = (.error .notFound, l) := by
  induction l with
  | nil => rfl
  | cons p rest ih =>
    have hp := h p (List.mem_cons_self p rest)
    simp [updateProductList, hp, ih fun x hx => h x (List.mem_cons_of_mem _ hx)]

theorem updateProductList_found (pid : Int) (n : String) (cid : Int) (url : String)
    (qty : Int) (l : List Product) (hnd : (l.map Product.id).Nodup)
    (h : ∃ p ∈ l, p.id = pid) :
    updateProductList pid n cid url qty l =
      (.ok ⟨pid, n, cid, url, qty⟩,
       l.map fun p => if p.id = pid then (⟨pid, n, cid, url, qty⟩ : Product) else p) := by
  induction l with
  | nil => simp at h
  | cons p rest ih =>
    by_cases hp : p.id = pid
    · have hrest : ∀ x ∈ rest, x.id ≠ pid :=
        fun x hx => hp ▸ nodup_cons_head_ne_prod p rest hnd x hx
      simp [updateProductList, hp, map_prod_ite_id pid _ rest hrest]
    · obtain ⟨x, hx, hxid⟩ := h
      rcases List.mem_cons.mp hx with rfl | hx'
      · exact absurd hxid hp
      · simp [updateProductList, hp,
          ih (List.nodup_cons.mp hnd).2 ⟨x, hx', hxid⟩]

theorem updateProductList_fst_ne_invalid (pid : Int) (n : String) (cid : Int) (url : String)
    (qty : Int) (l : List Product) :
    (updateProductList pid n cid url qty l).1 ≠ .error .invalidReference := by
  induction l with
  | nil => simp [updateProductList]
  | cons p rest ih =>
    by_cases h : p.id = pid
    · simp [updateProductList, h]
    · simpa [updateProductList, h] using ih

theorem partialUpdateProductList_snd_map_id (pid : Int) (data : ProductUpdate)
    (cats : List Category) (l : List Product) :
    ((partialUpdateProductList pid data cats l).2).map Product.id = l.map Product.id := by
  induction l with
  | nil => rfl
  | cons p rest ih =>
    by_cases h : p.id = pid
    · rcases data with ⟨oname, ocid, ourl, oqty⟩
      cases oname <;> cases ocid <;> cases ourl <;> cases oqty <;>
        simp [partialUpdateProductList, h] <;> (try split) <;> simp [h]
    · simp [partialUpdateProductList, h, ih]

theorem partialUpdateProductList_not_found (pid : Int) (data : ProductUpdate)
    (cats : List Category) (l : List Product) (h : ∀ p ∈ l, p.id ≠ pid) :
    partialUpdateProductList pid data cats l = (.error .notFound, l) := by
  induction l with
  | nil => rfl
  | cons p rest ih =>
    have hp := h p (List.mem_cons_self p rest)
    simp [partialUpdateProductList, hp,
      ih fun x hx => h x (List.mem_cons_of_mem _ hx)]

theorem partialUpdateProductList_found_badcid (pid cid : Int) (data : ProductUpdate)
    (cats : List Category) (l : List Product)
    (hcid : data.category_id = some cid)
    (hbad : cats.any (fun c => c.id = cid) = false)
    (hnd : (l.map Product.id).Nodup)
    (h : ∃ p ∈ l, p.id = pid) :
    partialUpdateProductList pid data cats l =
      (.error .invalidReference,
       l.map fun p => if p.id = pid then
         (match data.name with | some v => { p with name := v } | none => p) else p) := by
  induction l with
  | nil => simp at h
  | cons p rest ih =>
    by_cases hp : p.id = pid
    · have hrest : ∀ x ∈ rest, x.id ≠ pid :=
        fun x hx => hp ▸ nodup_cons_head_ne_prod p rest hnd x hx
      rcases data with ⟨oname, ocid, ourl, oqty⟩
      simp only at hcid
      subst hcid
      cases oname <;>
        simp [partialUpdateProductList, hp, hbad, map_prod_ite_id pid _ rest hrest]
    · obtain ⟨x, hx, hxid⟩ := h
      rcases List.mem_cons.mp hx with rfl | hx'
      · exact absurd hxid hp
      · simp [partialUpdateProductList, hp,
          ih (List.nodup_cons.mp hnd).2 ⟨x, hx', hxid⟩]

/-! ### Facts about the delete loops -/

theorem filter_cat_eq_self (cid : Int) (l : List Category) (h : ∀ c ∈ l, c.id ≠ cid) :
    (l.filter fun c => c.id ≠ cid) = l := by
  induction l with
  | nil => rfl
  | cons c rest ih =>
    rw [List.filter_cons, if_pos (by simp [h c (List.mem_cons_self c rest)]),
      ih fun x hx => h x (List.mem_cons_of_mem _ hx)]

theorem removeFirstCategory_eq_none (cid : Int) (l : List Category)
    (h : ∀ c ∈ l, c.id ≠ cid) : removeFirstCategory cid l = none := by
  induction l with
  | nil => rfl
  | cons c rest ih =>
    simp [removeFirstCategory, h c (List.mem_cons_self c rest),
      ih fun x hx => h x (List.mem_cons_of_mem _ hx)]

theorem removeFirstCategory_eq_filter (cid : Int) (l : List Category)
    (hnd : (l.map Category.id).Nodup) (h : ∃ c ∈ l, c.id = cid) :
    removeFirstCategory cid l = some (l.filter fun c => c.id ≠ cid) := by
  induction l with
  | nil => simp at h
  | cons c rest ih =>
    by_cases hc : c.id = cid
    · have hrest : ∀ x ∈ rest, x.id ≠ cid :=
        fun x hx => hc ▸ nodup_cons_head_ne c rest hnd x hx
      rw [List.filter_cons, if_neg (by simp [hc]), filter_cat_eq_self cid rest hrest]
      simp [removeFirstCategory, hc]
    · obtain ⟨x, hx, hxid⟩ := h
      rcases List.mem_cons.mp hx with rfl | hx'
      · exact absurd hxid hc
      · rw [List.filter_cons, if_pos (by simp [hc])]
        simp only [removeFirstCategory, if_neg hc,
          ih (List.nodup_cons.mp hnd).2 ⟨x, hx', hxid⟩, Option.map_some']

theorem removeFirstCategory_sublist (cid : Int) (l l' : List Category)
    (h : removeFirstCategory cid l = some l') : l'.Sublist l := by
  induction l generalizing l' with
  | nil => simp [removeFirstCategory] at h
  | cons c rest ih =>
    by_cases hc : c.id = cid
    · simp only [removeFirstCategory, if_pos hc, Option.some.injEq] at h
      exact h ▸ List.sublist_cons_self c rest
    · simp only [removeFirstCategory, if_neg hc, Option.map_eq_some'] at h
      obtain ⟨a, ha, rfl⟩ := h
      exact (ih a ha).cons₂ c

theorem removeFirstProduct_sublist (pid : Int) (l l' : List Product)
    (h : removeFirstProduct pid l = some l') : l'.Sublist l := by
  induction l generalizing l' with
  | nil => simp [removeFirstProduct] at h
  | cons p rest ih =>
    by_cases hp : p.id = pid
    · simp only [removeFirstProduct, if_pos hp, Option.some.injEq] at h
      exact h ▸ List.sublist_cons_self p rest
    · simp only [removeFirstProduct, if_neg hp, Option.map_eq_some'] at h
      obtain ⟨a, ha, rfl⟩ := h
      exact (ih a ha).cons₂ p

/-! ### Facts about the session store -/

theorem lookupToken_eq_none_iff (sessions : Sessions) (token : String) :
    lookupToken sessions token = none ↔ ∀ e ∈ sessions, e.1 ≠ token := by
  unfold lookupToken
  simp [List.find?_eq_none]

theorem lookupToken_some_mem (sessions : Sessions) (token u : String)
    (h : lookupToken sessions token = some u) : (token, u) ∈ sessions := by
  unfold lookupToken at h
  rw [Option.map_eq_some'] at h
  obtain ⟨⟨t, v⟩, hfind, hsnd⟩ := h
  have ht : t = token := by simpa using List.find?_some hfind
  have hmem := List.mem_of_find?_eq_some hfind
  subst ht
  cases hsnd
  exact hmem

theorem updateCategoryList_found_fst (cid : Int) (n : String) (l : List Category)
    (h : ∃ c ∈ l, c.id = cid) :
    (updateCategoryList cid n l).1 = .ok ⟨cid, n⟩ := by
  induction l with
  | nil => simp at h
  | cons c rest ih =>
    by_cases hc : c.id = cid
    · simp [updateCategoryList, hc]
    · obtain ⟨x, hx, hxid⟩ := h
      rcases List.mem_cons.mp hx with rfl | hx'
      · exact absurd hxid hc
      · simp [updateCategoryList, hc, ih ⟨x, hx', hxid⟩]

/-! ### Claim theorems -/

/-- C5: with the configured admin credentials, `admin_login` returns the fresh
token and a subsequent `authenticate_admin_token` of that token against the
updated session table returns that username; with any other credential pair it
signals `Unauthorized` and leaves the session table unchanged (no token is
issued). -/
theorem admin_login_spec (username password token : String) (sessions : Sessions) :
    (username = ADMIN_USERNAME ∧ password = ADMIN_PASSWORD →
      (admin_login username password token sessions).1 = .ok token ∧
      authenticate_admin_token (admin_login username password token sessions).2 token =
        .ok username) ∧
    (¬(username = ADMIN_USERNAME ∧ password = ADMIN_PASSWORD) →
      admin_login username password token sessions = (.error .unauthorized, sessions)) := by
  constructor
  · rintro ⟨h1, h2⟩
    refine ⟨by simp [admin_login, h1, h2], ?_⟩
    simp [admin_login, h1, h2, authenticate_admin_token, storeToken, lookupToken,
      List.find?]
  · intro h
    simp [admin_login, h]

/-- C6: `create_category` always succeeds, appends a category whose id is
`max(existing ids) + 1` — 1 when the collection is empty — and whose name is
the given one, returns that category, and leaves all previously existing
categories (and the products) unchanged. -/
theorem create_category_spec (name : String) (s : StoreState) :
    ∃ cat : Category,
      create_category name s = (cat, ⟨s.categories ++ [cat], s.products⟩) ∧
      cat.name = name ∧
      (s.categories = [] → cat.id = 1) ∧
      (s.categories ≠ [] →
        ∃ c ∈ s.categories, cat.id = c.id + 1 ∧ ∀ c' ∈ s.categories, c'.id ≤ c.id) := by
  refine ⟨⟨get_next_category_id s.categories, name⟩, rfl, rfl, ?_, ?_⟩
  · intro h
    simp [get_next_category_id, h, maxWithDefault]
  · intro h
    have hmem := maxWithDefault_mem (s.categories.map Category.id) 0 (by simpa using h)
    obtain ⟨c, hc, hcid⟩ := List.mem_map.mp hmem
    refine ⟨c, hc, by simp [get_next_category_id, hcid], fun c' hc' => ?_⟩
    rw [hcid]
    exact le_maxWithDefault _ 0 _ (List.mem_map_of_mem Category.id hc')

/-- C8: `authenticate_admin_token` signals `Unauthorized` exactly when the
token is absent from the session table, and returns a username exactly when
the token is present; a returned username is one stored for that token.  The
check is embedded as a pure function of the session table: the Python code
only reads `ADMIN_SESSIONS` and never touches the catalog collections. -/
theorem authenticate_admin_token_spec (sessions : Sessions) (token : String) :
    (authenticate_admin_token sessions token = .error .unauthorized ↔
      ∀ e ∈ sessions, e.1 ≠ token) ∧
    ((∃ u, authenticate_admin_token sessions token = .ok u) ↔
      ∃ e ∈ sessions, e.1 = token) ∧
    (∀ u, authenticate_admin_token sessions token = .ok u → (token, u) ∈ sessions) := by
  refine ⟨?_, ?_, ?_⟩
  · cases hl : lookupToken sessions token with
    | none =>
      simp only [authenticate_admin_token, hl]
      exact iff_of_true (by simp) ((lookupToken_eq_none_iff sessions token).mp hl)
    | some u =>
      simp only [authenticate_admin_token, hl]
      constructor
      · intro hcontra
        exact absurd hcontra (by simp)
      · intro hall
        have := lookupToken_some_mem sessions token u hl
        exact absurd rfl (hall (token, u) this)
  · cases hl : lookupToken sessions token with
    | none =>
      simp only [authenticate_admin_token, hl]
      constructor
      · rintro ⟨u, hu⟩
        exact absurd hu (by simp)
      · rintro ⟨e, he, he1⟩
        have := (lookupToken_eq_none_iff sessions token).mp hl e he
        exact absurd he1 this
    | some u =>
      simp only [authenticate_admin_token, hl]
      refine iff_of_true ⟨u, rfl⟩ ?_
      exact ⟨(token, u), lookupToken_some_mem sessions token u hl, rfl⟩
  · intro u hu
    cases hl : lookupToken sessions token with
    | none => simp [authenticate_admin_token, hl] at hu
    | some v =>
      simp only [authenticate_admin_token, hl, Except.ok.injEq] at hu
      exact hu ▸ lookupToken_some_mem sessions token v hl

/-- C9: `partial_update_category` with the name supplied is exactly
`update_category`; with the name omitted it succeeds on a present id, returns
the matching category and leaves the store unchanged; both signal `NotFound`
exactly when no category has the id (when one has it, the full update
succeeds with the renamed category). -/
theorem partial_update_category_equiv_update (cid : Int) (n : String) (s : StoreState) :
    partial_update_category cid (some n) s = update_category cid n s ∧
    ((∃ c ∈ s.categories, c.id = cid) →
      (∃ c ∈ s.categories, c.id = cid ∧ partial_update_category cid none s = (.ok c, s)) ∧
      (update_category cid n s).1 = .ok ⟨cid, n⟩) ∧
    ((∀ c ∈ s.categories, c.id ≠ cid) →
      partial_update_category cid none s = (.error .notFound, s) ∧
      update_category cid n s = (.error .notFound, s)) := by
  refine ⟨?_, ?_, ?_⟩
  · unfold partial_update_category update_category
    rw [partialUpdateCategoryList_some]
  · intro h
    constructor
    · obtain ⟨c, hc, hcid, heq⟩ := partialUpdateCategoryList_none_found cid s.categories h
      exact ⟨c, hc, hcid, by unfold partial_update_category; rw [heq]⟩
    · exact updateCategoryList_found_fst cid n s.categories h
  · intro h
    constructor
    · unfold partial_update_category
      rw [partialUpdateCategoryList_not_found cid none s.categories h]
    · unfold update_category
      rw [updateCategoryList_not_found cid n s.categories h]

/-- C10: no update operation changes any id: after `update_category`,
`partial_update_category`, `update_product` or `partial_update_product` —
whether the call succeeds or fails — the sequence of category ids and the
sequence of product ids are exactly what they were before the call, and the
collection the operation does not target is untouched. -/
theorem update_ops_preserve_ids (s : StoreState) (cid pid : Int) (n n2 url : String)
    (cno : Option String) (pcid qty : Int) (data : ProductUpdate) :
    ((update_category cid n s).2.categories.map Category.id =
        s.categories.map Category.id ∧
      (update_category cid n s).2.products = s.products) ∧
    ((partial_update_category cid cno s).2.categories.map Category.id =
        s.categories.map Category.id ∧
      (partial_update_category cid cno s).2.products = s.products) ∧
    ((update_product pid n2 pcid url qty s).2.products.map Product.id =
        s.products.map Product.id ∧
      (update_product pid n2 pcid url qty s).2.categories = s.categories) ∧
    ((partial_update_product pid data s).2.products.map Product.id =
        s.products.map Product.id ∧
      (partial_update_product pid data s).2.categories = s.categories) :=
  ⟨⟨updateCategoryList_snd_map_id cid n s.categories, rfl⟩,
   ⟨partialUpdateCategoryList_snd_map_id cid cno s.categories, rfl⟩,
   ⟨updateProductList_snd_map_id pid n2 pcid url qty s.products, rfl⟩,
   ⟨partialUpdateProductList_snd_map_id pid data s.categories s.products, rfl⟩⟩

/-- C2: when no category has the id, `delete_category` signals `NotFound` and
changes nothing; otherwise, in one step, it removes exactly the category with
that id and every product whose category_id equals it, leaving all other
categories and products unchanged; afterwards the product collection contains
no product with that category_id. -/
theorem delete_category_spec (s : StoreState) (cid : Int)
    (hnd : (s.categories.map Category.id).Nodup) :
    ((∀ c ∈ s.categories, c.id ≠ cid) → delete_category cid s = (.error .notFound, s)) ∧
    ((∃ c ∈ s.categories, c.id = cid) →
      delete_category cid s =
        (.ok (), ⟨s.categories.filter (fun c => c.id ≠ cid),
                  s.products.filter (fun p => p.category_id ≠ cid)⟩) ∧
      ∀ p ∈ (delete_category cid s).2.products, p.category_id ≠ cid) := by
  constructor
  · intro h
    unfold delete_category
    rw [removeFirstCategory_eq_none cid s.categories h]
  · intro h
    have heq := removeFirstCategory_eq_filter cid s.categories hnd h
    have hstate : delete_category cid s =
        (.ok (), ⟨s.categories.filter (fun c => c.id ≠ cid),
                  s.products.filter (fun p => p.category_id ≠ cid)⟩) := by
      unfold delete_category
      rw [heq]
    refine ⟨hstate, ?_⟩
    intro p hp
    rw [hstate] at hp
    simp only [List.mem_filter, decide_not] at hp
    simpa using hp.2

/-- Witness for C2 at a concrete store: deleting category 1 cascades to its
product and leaves the rest. -/
theorem delete_category_spec_witness :
    delete_category 1
      (⟨[⟨1, "A"⟩, ⟨2, "B"⟩], [⟨1, "p", 1, "u", 5⟩, ⟨2, "q", 2, "v", 6⟩]⟩ : StoreState) =
      (.ok (), ⟨[⟨2, "B"⟩], [⟨2, "q", 2, "v", 6⟩]⟩) := by
  have h := (delete_category_spec
      ⟨[⟨1, "A"⟩, ⟨2, "B"⟩], [⟨1, "p", 1, "u", 5⟩, ⟨2, "q", 2, "v", 6⟩]⟩ 1
      (by decide)).2 ⟨⟨1, "A"⟩, by decide, rfl⟩
  exact h.1.trans rfl

/-- C3: `update_product` on a present product id succeeds for EVERY value of
category_id — including values referencing no existing category — replacing
all four fields and returning the updated product; it signals `NotFound`
exactly when no product has the id, and never signals `InvalidReference`. -/
theorem update_product_spec (s : StoreState) (pid : Int) (n : String) (cid : Int)
    (url : String) (qty : Int) (hnd : (s.products.map Product.id).Nodup) :
    ((∃ p ∈ s.products, p.id = pid) →
      update_product pid n cid url qty s =
        (.ok ⟨pid, n, cid, url, qty⟩,
         ⟨s.categories,
          s.products.map fun p => if p.id = pid then (⟨pid, n, cid, url, qty⟩ : Product) else p⟩)) ∧
    ((∀ p ∈ s.products, p.id ≠ pid) →
      update_product pid n cid url qty s = (.error .notFound, s)) ∧
    (update_product pid n cid url qty s).1 ≠ .error .invalidReference := by
  refine ⟨?_, ?_, updateProductList_fst_ne_invalid pid n cid url qty s.products⟩
  · intro h
    unfold update_product
    rw [updateProductList_found pid n cid url qty s.products hnd h]
  · intro h
    unfold update_product
    rw [updateProductList_not_found pid n cid url qty s.products h]

/-- Witness for C3 at a concrete store: a full update with a dangling
category_id (no category 99 exists) still succeeds. -/
theorem update_product_spec_witness :
    update_product 1 "n" 99 "u" 7 (⟨[⟨1, "A"⟩], [⟨1, "p", 1, "u", 5⟩]⟩ : StoreState) =
      (.ok ⟨1, "n", 99, "u", 7⟩, ⟨[⟨1, "A"⟩], [⟨1, "n", 99, "u", 7⟩]⟩) := by
  have h := (update_product_spec ⟨[⟨1, "A"⟩], [⟨1, "p", 1, "u", 5⟩]⟩ 1 "n" 99 "u" 7
      (by decide)).1 ⟨⟨1, "p", 1, "u", 5⟩, by decide, rfl⟩
  exact h.trans rfl

/-- C4: `create_product` with a category_id matching no category signals
`InvalidReference` and leaves the store exactly unchanged (no partial insert);
with a matching category it appends a product carrying the next id
(`max(existing product ids) + 1`, or 1 on an empty collection) and the four
supplied field values, and returns it. -/
theorem create_product_spec (s : StoreState) (n : String) (cid : Int) (url : String)
    (qty : Int) :
    ((∀ c ∈ s.categories, c.id ≠ cid) →
      create_product n cid url qty s = (.error .invalidReference, s)) ∧
    ((∃ c ∈ s.categories, c.id = cid) →
      ∃ prod : Product,
        create_product n cid url qty s = (.ok prod, ⟨s.categories, s.products ++ [prod]⟩) ∧
        prod.name = n ∧ prod.category_id = cid ∧ prod.image_url = url ∧
        prod.quantity = qty ∧
        (s.products = [] → prod.id = 1) ∧
        (s.products ≠ [] →
          ∃ p ∈ s.products, prod.id = p.id + 1 ∧ ∀ q ∈ s.products, q.id ≤ p.id)) := by
  constructor
  · intro h
    have hany : ¬(s.categories.any (fun c => c.id = cid) = true) := by
      simp only [List.any_eq_true]
      rintro ⟨c, hc, hcid⟩
      exact h c hc (by simpa using hcid)
    unfold create_product
    rw [if_neg hany]
  · intro h
    have hany : s.categories.any (fun c => c.id = cid) = true := by
      simp only [List.any_eq_true]
      obtain ⟨c, hc, hcid⟩ := h
      exact ⟨c, hc, by simpa using hcid⟩
    refine ⟨⟨get_next_product_id s.products, n, cid, url, qty⟩, ?_, rfl, rfl, rfl, rfl, ?_, ?_⟩
    · unfold create_product
      rw [if_pos hany]
    · intro he
      simp [get_next_product_id, he, maxWithDefault]
    · intro hne
      have hmem := maxWithDefault_mem (s.products.map Product.id) 0 (by simpa using hne)
      obtain ⟨p, hp, hpid⟩ := List.mem_map.mp hmem
      refine ⟨p, hp, by simp [get_next_product_id, hpid], fun q hq => ?_⟩
      rw [hpid]
      exact le_maxWithDefault _ 0 _ (List.mem_map_of_mem Product.id hq)

/-- C1 counterexample: `partial_update_product` on product 1 with a new name
AND a category_id (99) that references no category signals `InvalidReference`
but has already overwritten the product's name ("p" became "X"), so the failed
call does NOT leave the product's existing fields unmodified. -/
theorem partial_update_product_modifies_name_on_bad_cid :
    partial_update_product 1 ⟨some "X", some 99, none, none⟩
      (⟨[⟨1, "A"⟩], [⟨1, "p", 1, "u", 5⟩]⟩ : StoreState) =
      (.error .invalidReference, ⟨[⟨1, "A"⟩], [⟨1, "X", 1, "u", 5⟩]⟩) ∧
    (⟨[⟨1, "A"⟩], [⟨1, "X", 1, "u", 5⟩]⟩ : StoreState) ≠
      (⟨[⟨1, "A"⟩], [⟨1, "p", 1, "u", 5⟩]⟩ : StoreState) :=
  ⟨rfl, by decide⟩

/-- C1 amended: on a store with pairwise-distinct product ids, calling
`partial_update_product` on a present product id with a category_id that
references no category signals `InvalidReference` and leaves the category
collection, every other product, and the matched product's id, category_id,
image_url and quantity unchanged; but the matched product's name has already
been overwritten when a name was supplied — the store is fully unchanged only
when the name was omitted — because the loop applies `name` before validating
`category_id`. -/
theorem partial_update_product_bad_cid_effect (s : StoreState) (pid cid : Int)
    (data : ProductUpdate) (hcid : data.category_id = some cid)
    (hbad : ∀ c ∈ s.categories, c.id ≠ cid)
    (hnd : (s.products.map Product.id).Nodup)
    (hmem : ∃ p ∈ s.products, p.id = pid) :
    partial_update_product pid data s =
      (.error .invalidReference,
       ⟨s.categories,
        s.products.map fun p => if p.id = pid then
          (match data.name with | some v => { p with name := v } | none => p) else p⟩) ∧
    (data.name = none → (partial_update_product pid data s).2 = s) := by
  have hany : s.categories.any (fun c => c.id = cid) = false := by
    rw [List.any_eq_false]
    intro c hc
    simpa using hbad c hc
  have hlist := partialUpdateProductList_found_badcid pid cid data s.categories
    s.products hcid hany hnd hmem
  constructor
  · unfold partial_update_product
    rw [hlist]
  · intro hn
    unfold partial_update_product
    rw [hlist]
    simp only [hn, ite_self, List.map_id']

/-- Witness for the amended C1 at a concrete store: with the name omitted the
failed call leaves the store exactly as it was. -/
theorem partial_update_product_bad_cid_effect_witness :
    partial_update_product 2 ⟨none, some 7, none, none⟩
      (⟨[⟨1, "A"⟩], [⟨2, "p", 1, "u", 5⟩]⟩ : StoreState) =
      (.error .invalidReference, ⟨[⟨1, "A"⟩], [⟨2, "p", 1, "u", 5⟩]⟩) := by
  have h := partial_update_product_bad_cid_effect
      ⟨[⟨1, "A"⟩], [⟨2, "p", 1, "u", 5⟩]⟩ 2 7 ⟨none, some 7, none, none⟩ rfl
      (by decide) (by decide) ⟨⟨2, "p", 1, "u", 5⟩, by decide, rfl⟩
  exact h.1.trans rfl

/-! ### Preservation of id uniqueness (C7) -/

theorem nodup_append_singleton (l : List Int) (a : Int) (hl : l.Nodup) (ha : a ∉ l) :
    (l ++ [a]).Nodup := by
  rw [List.nodup_append]
  refine ⟨hl, List.nodup_singleton a, ?_⟩
  intro x hx hx'
  rcases List.mem_singleton.mp hx' with rfl
  exact ha hx

theorem get_next_category_id_not_mem (l : List Category) :
    get_next_category_id l ∉ l.map Category.id := by
  intro hmem
  have h := le_maxWithDefault (l.map Category.id) 0 _ hmem
  unfold get_next_category_id at h
  omega

theorem get_next_product_id_not_mem (l : List Product) :
    get_next_product_id l ∉ l.map Product.id := by
  intro hmem
  have h := le_maxWithDefault (l.map Product.id) 0 _ hmem
  unfold get_next_product_id at h
  omega

theorem applyOp_preserves_idsUnique (op : CatalogOp) (s : StoreState)
    (h : IdsUnique s) : IdsUnique (applyOp op s) := by
  obtain ⟨hc, hp⟩ := h
  cases op with
  | createCategory name =>
    refine ⟨?_, hp⟩
    show ((s.categories ++
      [({ id := get_next_category_id s.categories, name := name } : Category)]).map
      Category.id).Nodup
    rw [List.map_append]
    exact nodup_append_singleton _ _ hc (get_next_category_id_not_mem s.categories)
  | updateCategory id name =>
    refine ⟨?_, hp⟩
    show (((updateCategoryList id name s.categories).2).map Category.id).Nodup
    rw [updateCategoryList_snd_map_id]
    exact hc
  | patchCategory id name =>
    refine ⟨?_, hp⟩
    show (((partialUpdateCategoryList id name s.categories).2).map Category.id).Nodup
    rw [partialUpdateCategoryList_snd_map_id]
    exact hc
  | deleteCategory id =>
    simp only [applyOp, delete_category]
    cases hrem : removeFirstCategory id s.categories with
    | none => exact ⟨hc, hp⟩
    | some cats =>
      refine ⟨?_, ?_⟩
      · exact hc.sublist ((removeFirstCategory_sublist id s.categories cats hrem).map
          Category.id)
      · exact hp.sublist ((List.filter_sublist s.products).map Product.id)
  | createProduct name cid url qty =>
    simp only [applyOp, create_product]
    by_cases hany : s.categories.any (fun cat => cat.id = cid) = true
    · rw [if_pos hany]
      refine ⟨hc, ?_⟩
      show ((s.products ++
        [({ id := get_next_product_id s.products, name := name, category_id := cid,
            image_url := url, quantity := qty } : Product)]).map Product.id).Nodup
      rw [List.map_append]
      exact nodup_append_singleton _ _ hp (get_next_product_id_not_mem s.products)
    · rw [if_neg hany]
      exact ⟨hc, hp⟩
  | updateProduct id name cid url qty =>
    refine ⟨hc, ?_⟩
    show (((updateProductList id name cid url qty s.products).2).map Product.id).Nodup
    rw [updateProductList_snd_map_id]
    exact hp
  | patchProduct id data =>
    refine ⟨hc, ?_⟩
    show (((partialUpdateProductList id data s.categories s.products).2).map
      Product.id).Nodup
    rw [partialUpdateProductList_snd_map_id]
    exact hp
  | deleteProduct id =>
    simp only [applyOp, delete_product]
    cases hrem : removeFirstProduct id s.products with
    | none => exact ⟨hc, hp⟩
    | some prods =>
      refine ⟨hc, ?_⟩
      exact hp.sublist ((removeFirstProduct_sublist id s.products prods hrem).map
        Product.id)

theorem runOps_preserves_idsUnique (ops : List CatalogOp) (s : StoreState)
    (h : IdsUnique s) : IdsUnique (runOps ops s) := by
  induction ops generalizing s with
  | nil => exact h
  | cons op rest ih => exact ih _ (applyOp_preserves_idsUnique op s h)

/-- C7: starting from the seeded initial state (10 categories, 53 products),
after every sequence of catalog operations — creates, full and partial
updates, deletes — the category ids are pairwise distinct and the product ids
are pairwise distinct. -/
theorem ids_unique_after_any_ops (ops : List CatalogOp) :
    IdsUnique (runOps ops initialState) :=
  runOps_preserves_idsUnique ops initialState ⟨by decide, by decide⟩
